import Mathlib

/-!
# cpy: a clipboard bridge (src/main.cpp)

A shallow embedding of `src/main.cpp` and theorems about it.

Modelling conventions.

* A C++ `char` is a Lean `Char`; `std::string` and `std::string_view` are
  `List Char` (`Str`).  The zero byte is `NUL`.
* A file descriptor is the list of the results its successive `read` calls
  will return (each the bytes stored in the buffer); once the list is
  exhausted `read` returns 0 (end of stream).  A `read` that fails (`-1`)
  is outside the model.
* A run of the program is described by the list of `Event`s it performs
  (system calls with their arguments, text sent to `std::cout` and
  `std::cerr`), including those of the child created by `fork`, and by
  how it ends (`Result`): by returning, through `exit`, by a signal, or in
  undefined behaviour.  What the environment answers is in `World`.
-/

namespace Cpy

/-- `std::string` / `std::string_view`: a sequence of `char`. -/
abbrev Str := List Char

/-- The zero byte that terminates a C string. -/
def NUL : Char := Char.ofNat 0

/-! ## readAllFromFd (main.cpp 17-28) -/

/-- `const size_t BUFFER_SIZE = 2048;` -/
def BUFFER_SIZE : Nat := 2048

/-- The bytes `data += buffer` appends after `length = read(fd, buffer, BUFFER_SIZE)`
stored `chunk` at the start of `buffer` and `buffer[length] = 0` stored the
terminator right behind it: `operator+=(const char*)` copies the bytes before the
first zero byte. -/
def appended (chunk : Str) : Str :=
  (chunk ++ [NUL]).takeWhile (fun c => c != NUL)

/-- What one call of `readAllFromFd` did. -/
structure ReadAll where
  /-- the returned `std::string data` -/
  data : Str
  /-- the `count` argument of every `read` call issued, in order -/
  requests : List Nat
  /-- the read results the descriptor still holds afterwards -/
  rest : List Str
  deriving DecidableEq, Repr

/-- The `do { ... } while (length == BUFFER_SIZE);` loop: `data` is the string
accumulated so far, `requests` the reads issued so far. -/
def readLoop : List Str → Str → List Nat → ReadAll
  | [], data, requests =>
      -- end of stream: `read` returns 0, `buffer[0] = 0`, nothing is appended
      { data := data ++ appended [], requests := requests ++ [BUFFER_SIZE], rest := [] }
  | chunk :: rest, data, requests =>
      if chunk.length = BUFFER_SIZE then
        readLoop rest (data ++ appended chunk) (requests ++ [BUFFER_SIZE])
      else
        { data := data ++ appended chunk, requests := requests ++ [BUFFER_SIZE], rest := rest }

/-- `std::string readAllFromFd(int fd)`; `fd` is given by its pending read results. -/
def readAllFromFd (fd : List Str) : ReadAll :=
  readLoop fd [] []

/-! ## getFileTypeFromExtension (main.cpp 98-114) -/

/-- The `static const std::map` `wellKnownExtensions`, in source order. -/
def wellKnownExtensions : List (Str × Str) :=
  [ ("json".toList, "application/json".toList), ("pdf".toList, "application/pdf".toList),
    ("zip".toList, "application/zip".toList), ("png".toList, "image/png".toList),
    ("jpeg".toList, "image/jpeg".toList), ("jpg".toList, "image/jpeg".toList),
    ("gif".toList, "image/gif".toList), ("bmp".toList, "image/bmp".toList),
    ("js".toList, "text/javascript".toList), ("html".toList, "text/html".toList),
    ("css".toList, "text/css".toList) ]

/-- `wellKnownExtensions.find(extension)`: the entry whose key equals `extension`
(keys of a `std::map` are unique), or `end()`. -/
def mapFind (m : List (Str × Str)) (key : Str) : Option (Str × Str) :=
  m.find? (fun entry => entry.1 == key)

/-- `std::optional<std::string_view> getFileTypeFromExtension(extension)`. -/
def getFileTypeFromExtension (extension : Str) : Option Str :=
  match mapFind wellKnownExtensions extension with
  | some it => some it.2
  | none => none

/-- `path.rfind(c)` for a one-character needle: the index of the last occurrence of
`c`, or `none` for `npos`. -/
def rfind : Str → Char → Option Nat
  | [], _ => none
  | x :: xs, c =>
      match rfind xs c with
      | some i => some (i + 1)
      | none => if x = c then some 0 else none

/-! ## Processes: events, results, environment -/

/-- The line end written by `std::endl`. -/
def endl : Str := [Char.ofNat 10]

/-- The tab character written by `printUsage`. -/
def TAB : Char := Char.ofNat 9

/-- What a run does, in program order.  `pipe`, `close`, `dup2` and `fileno` only
fix which descriptor is which and are not recorded: `write` is the write into the
pipe that is the child's standard input.  The events of the child stand right behind
`fork`; how the two processes interleave is not modelled. -/
inductive Event where
  /-- `fopen(path, mode)` -/
  | fopen (path : Str) (mode : Str)
  /-- `fork()` -/
  | fork
  /-- in the child: `execlp(argv[0], argv[0], argv[1], ..., nullptr)` -/
  | execlp (argv : List Str)
  /-- in the child, when `execlp` returned: text sent to `std::cerr` -/
  | childCerr (text : Str)
  /-- in the child, when `execlp` returned: `exit(code)` -/
  | childExit (code : Int)
  /-- `write(fd[1], content.data(), content.length())` -/
  | write (content : Str)
  /-- `waitpid(pid, &status, 0)` with the status it stored -/
  | waitpid (status : Int)
  /-- text sent to `std::cout` by one statement -/
  | cout (text : Str)
  /-- text sent to `std::cerr` by one statement -/
  | cerr (text : Str)
  deriving DecidableEq, Repr

/-- How a function call ends. -/
inductive Result (α : Type) where
  /-- it returns `value` to its caller -/
  | returned (trace : List Event) (value : α)
  /-- it ends the whole program through `exit(status)` -/
  | exited (trace : List Event) (status : Int)
  /-- it passes a null `FILE*` to `fileno`: the behaviour is undefined -/
  | undefined (trace : List Event)
  /-- the process is ended by signal `signal` (no handler is installed anywhere in
  the source, so the default disposition applies) -/
  | killed (trace : List Event) (signal : Nat)
  deriving DecidableEq, Repr

/-- The events performed. -/
def Result.trace {α : Type} : Result α → List Event
  | .returned t _ => t
  | .exited t _ => t
  | .undefined t => t
  | .killed t _ => t

/-- Sequencing: `before` happened, then the call `r`. -/
def Result.after {α : Type} (before : List Event) : Result α → Result α
  | .returned t a => .returned (before ++ t) a
  | .exited t c => .exited (before ++ t) c
  | .undefined t => .undefined (before ++ t)
  | .killed t s => .killed (before ++ t) s

/-- Sequencing: the call `r`, and when it returns, the rest `k` of the caller. -/
def Result.andThen {α β : Type} (r : Result α) (k : α → Result β) : Result β :=
  match r with
  | .returned t a => (k a).after t
  | .exited t c => .exited t c
  | .undefined t => .undefined t
  | .killed t s => .killed t s

/-- The number of the signal raised by a write into a pipe that has no reader. -/
def SIGPIPE : Nat := 13

/-- What happens to the parent's `write(fd[1], ...)` into the pipe. -/
inductive PipeWrite where
  /-- `write` returns; the source does not look at the value returned -/
  | returns
  /-- the child has closed the read end before taking all the bytes (it ended
  without reading its standard input to the end, or `execlp` failed): the write raises
  `SIGPIPE`, which ends the parent -/
  | sigpipe
  deriving DecidableEq, Repr

/-- What becomes of the child created by `fork`. -/
inductive Child where
  /-- `execlp` returns (the utility cannot be executed); `strerror` is
  `std::strerror(errno)` -/
  | execFailed (strerror : Str)
  /-- the utility runs: `output` are the results of the reads on the pipe bound to
  its standard output, `status` the wait status `waitpid` stores -/
  | ran (output : List Str) (status : Int)
  deriving DecidableEq, Repr

/-- What the environment answers during one run. -/
structure World where
  /-- `isatty(fileno(stdin))` -/
  isatty : Bool
  /-- results of the successive reads on standard input -/
  stdin : List Str
  /-- `fopen(path, "r")`: `none` for a null pointer, else the results of the
  successive reads on the opened file -/
  fopen : Str → Option (List Str)
  /-- the fate of the forked child -/
  child : Child
  /-- the fate of the write into the pipe to the child, when there is one -/
  pipeWrite : PipeWrite

/-- The status `waitpid` stores: a child that ended through `exit(1)` has wait
status `1 << 8`. -/
def waitStatus : Child → Int
  | .execFailed _ => 256
  | .ran _ status => status

/-- Results of the parent's reads on the pipe bound to the child's standard output:
a child that wrote nothing leaves only the end of stream. -/
def pipeOutput : Child → List Str
  | .execFailed _ => []
  | .ran output _ => output

/-- The `pid == 0` branch shared by the three operations: `execlp`, and when it
returns, the error line and `exit(1)`. -/
def childBranch (w : World) (argv : List Str) : List Event :=
  match w.child with
  | .ran _ _ => [Event.execlp argv]
  | .execFailed strerror =>
      [Event.execlp argv,
       Event.childCerr ("Error executing xclip: ".toList ++ strerror ++ endl),
       Event.childExit 1]

/-! ## The three subprocess operations (main.cpp 30-96) -/

/-- `void copyToClipboard(const std::string_view content)`. -/
def copyToClipboard (w : World) (content : Str) : Result Unit :=
  let child := childBranch w
    ["xclip".toList, "-selection".toList, "clipboard".toList, "-i".toList]
  match w.pipeWrite with
  | .sigpipe => .killed ([Event.fork] ++ child ++ [Event.write content]) SIGPIPE
  | .returns =>
      let status := waitStatus w.child
      let trace := [Event.fork] ++ child ++ [Event.write content, Event.waitpid status]
      if status ≠ 0 then
        .exited (trace ++ [Event.cerr ("Failed to copy to clipboard".toList ++ endl)]) 1
      else
        .returned trace ()

/-- `void copyFileToClipboard(const std::string_view path, const std::string_view fileType)`. -/
def copyFileToClipboard (w : World) (path : Str) (fileType : Str) : Result Unit :=
  let child := childBranch w
    ["xclip".toList, "-selection".toList, "clipboard".toList, "-t".toList, fileType, path]
  let status := waitStatus w.child
  let trace := [Event.fork] ++ child ++ [Event.waitpid status]
  if status ≠ 0 then
    .exited (trace ++ [Event.cerr ("Failed to copy to clipboard".toList ++ endl)]) 1
  else
    .returned trace ()

/-- `std::string getClipboardContents()`. -/
def getClipboardContents (w : World) : Result Str :=
  let child := childBranch w
    ["xclip".toList, "-selection".toList, "clipboard".toList, "-o".toList]
  let content := (readAllFromFd (pipeOutput w.child)).data
  let status := waitStatus w.child
  let trace := [Event.fork] ++ child ++ [Event.waitpid status]
  if status ≠ 0 then
    .exited (trace ++ [Event.cerr ("Error getting clipboard data".toList ++ endl)]) 1
  else
    .returned trace content

/-! ## copyRawFileToClipboard, copyFile (main.cpp 116-138) -/

/-- `void copyRawFileToClipboard(std::string_view path)`. -/
def copyRawFileToClipboard (w : World) (path : Str) : Result Unit :=
  match w.fopen path with
  | none => .undefined [Event.fopen path "r".toList]
  | some fd =>
      let data := (readAllFromFd fd).data
      (copyToClipboard w data).after [Event.fopen path "r".toList]

/-- `void copyFile(std::string_view path)`. -/
def copyFile (w : World) (path : Str) : Result Unit :=
  match rfind path '.' with
  | none => copyRawFileToClipboard w path
  | some pos =>
      let extension := path.drop (pos + 1)
      match getFileTypeFromExtension extension with
      | none => copyRawFileToClipboard w path
      | some fileType => copyFileToClipboard w path fileType

/-! ## printUsage, main (main.cpp 140-193) -/

/-- `#define PROGRAM_NAME "cpy"` -/
def PROGRAM_NAME : Str := "cpy".toList

/-- The `examples` vector of `printUsage`. -/
def examples : List (Str × Str) :=
  [ (PROGRAM_NAME ++ " <filename>".toList, "Copy file to clipboard".toList),
    ("<command> | ".toList ++ PROGRAM_NAME, "Copy the output of command to clipboard".toList),
    (PROGRAM_NAME, "Output clipboard contents to stdout".toList),
    (PROGRAM_NAME ++ " > output.txt".toList, "Output clipboard contents to file".toList) ]

/-- The first loop of `printUsage`: the longest command. -/
def maxLength (es : List (Str × Str)) : Nat :=
  es.foldl (fun m e => max m e.1.length) 0

/-- The `while (command.length() < maxLength) command += ' ';` loop. -/
def pad (command : Str) (n : Nat) : Str :=
  command ++ List.replicate (n - command.length) ' '

/-- `void printUsage()`: the statements writing to `std::cout`. -/
def printUsage : List Event :=
  let padded := examples.map (fun e => (pad e.1 (maxLength examples), e.2))
  Event.cout ("Usage:".toList ++ endl) ::
    padded.map (fun e => Event.cout (TAB :: e.1 ++ " # ".toList ++ e.2 ++ endl))

/-- `int main(int argc, char *argv[])`; `argc` is the length of `argv`.  The value
returned is the exit status of the program. -/
def main (w : World) (argv : List Str) : Result Int :=
  let argc := argv.length
  if argc = 1 then
    if w.isatty then
      (getClipboardContents w).andThen fun content =>
        .returned [Event.cout content] 0
    else
      let data := (readAllFromFd w.stdin).data
      (copyToClipboard w data).andThen fun _ => .returned [] 0
  else if argc = 2 then
    let arg := argv.getD 1 []
    if arg = "--help".toList ∨ arg = "-h".toList then
      .returned printUsage 0
    else
      (copyFile w arg).andThen fun _ => .returned [] 0
  else
    .returned printUsage 0

/-! ## Observations on traces -/

/-- Everything the run sent to standard output. -/
def stdoutText : List Event → Str
  | [] => []
  | Event.cout text :: es => text ++ stdoutText es
  | _ :: es => stdoutText es

/-- Everything the run (parent and child) sent to standard error. -/
def stderrText : List Event → Str
  | [] => []
  | Event.cerr text :: es => text ++ stderrText es
  | Event.childCerr text :: es => text ++ stderrText es
  | _ :: es => stderrText es

/-- Whether an event is one of the clipboard operations' system calls. -/
def Event.isClipboardCall : Event → Bool
  | .fork => true
  | .execlp _ => true
  | .write _ => true
  | .waitpid _ => true
  | _ => false

/-- The contents handed to `write`, in order. -/
def written : List Event → List Str
  | [] => []
  | Event.write content :: es => content :: written es
  | _ :: es => written es

/-! ## Vocabulary for the read loop -/

/-- The leading read results of exactly `BUFFER_SIZE` bytes. -/
def leadingFull (fd : List Str) : List Str :=
  fd.takeWhile (fun chunk => chunk.length == BUFFER_SIZE)

/-- The read results up to and including the first that is not of `BUFFER_SIZE`
bytes (all of them when there is none: the loop then meets the end of stream, whose
read returns no byte). -/
def processed (fd : List Str) : List Str :=
  fd.take ((leadingFull fd).length + 1)

/-- A read result of exactly `BUFFER_SIZE` bytes, all equal to `c`. -/
def fullChunk (c : Char) : Str :=
  List.replicate BUFFER_SIZE c

/-! ## Sample environments -/

/-- An environment in which standard input is a pipe delivering `ab` and then `cd`,
every file opens and holds `xy`, and the utility runs and succeeds. -/
def sampleWorld : World :=
  { isatty := false
    stdin := ["ab".toList, "cd".toList]
    fopen := fun _ => some ["xy".toList]
    child := Child.ran [] 0
    pipeWrite := PipeWrite.returns }

/-- An environment in which standard input is a terminal and the utility writes `abc`
and then ends with wait status 1. -/
def failedReadWorld : World :=
  { isatty := true
    stdin := []
    fopen := fun _ => none
    child := Child.ran ["abc".toList] 1
    pipeWrite := PipeWrite.returns }

/-- An environment in which standard input is a pipe delivering, in one read, `a`, a
zero byte and `b`, and the utility runs and succeeds. -/
def nulWorld : World :=
  { isatty := false
    stdin := [['a', NUL, 'b']]
    fopen := fun _ => none
    child := Child.ran [] 0
    pipeWrite := PipeWrite.returns }

theorem appended_eq_takeWhile (chunk : Str) :
    appended chunk = chunk.takeWhile (fun c => c != NUL) := by
  unfold appended
  induction chunk with
  | nil => simp [List.takeWhile]
  | cons x xs ih =>
      simp only [List.cons_append, List.takeWhile_cons]
      split
      · rw [ih]
      · rfl

theorem appended_nil : appended [] = [] := by
  simp [appended_eq_takeWhile]

theorem appended_of_no_NUL (chunk : Str) (h : NUL ∉ chunk) : appended chunk = chunk := by
  rw [appended_eq_takeWhile, List.takeWhile_eq_self_iff]
  intro x hx
  simp only [bne_iff_ne, ne_eq]
  intro hxn
  exact h (hxn ▸ hx)

theorem appended_at_first_NUL (pre post : Str) (h : NUL ∉ pre) :
    appended (pre ++ NUL :: post) = pre := by
  rw [appended_eq_takeWhile, List.takeWhile_append_of_pos]
  · simp [List.takeWhile_cons]
  · intro x hx
    simp only [bne_iff_ne, ne_eq]
    intro hxn
    exact h (hxn ▸ hx)

theorem NUL_not_mem_appended (chunk : Str) : NUL ∉ appended chunk := by
  rw [appended_eq_takeWhile]
  intro h
  have := List.mem_takeWhile_imp h
  simp at this

/-- The loop, in closed form. -/
theorem readLoop_eq (fd : List Str) (data : Str) (requests : List Nat) :
    readLoop fd data requests =
      { data := data ++ ((processed fd).map appended).flatten,
        requests := requests ++ List.replicate ((leadingFull fd).length + 1) BUFFER_SIZE,
        rest := fd.drop ((leadingFull fd).length + 1) } := by
  induction fd generalizing data requests with
  | nil => simp [readLoop, processed, leadingFull, appended_nil]
  | cons chunk rest ih =>
      by_cases hc : chunk.length = BUFFER_SIZE
      · have hp : processed (chunk :: rest) = chunk :: processed rest := by
          simp [processed, leadingFull, hc]
        have hl : leadingFull (chunk :: rest) = chunk :: leadingFull rest := by
          simp [leadingFull, hc]
        rw [readLoop, if_pos hc, ih, hp, hl]
        simp [List.replicate_succ]
      · have hl : leadingFull (chunk :: rest) = [] := by
          simp [leadingFull, hc]
        have hp : processed (chunk :: rest) = [chunk] := by
          simp [processed, hl]
        rw [readLoop, if_neg hc, hp, hl]
        simp

theorem readAllFromFd_eq (fd : List Str) :
    readAllFromFd fd =
      { data := ((processed fd).map appended).flatten,
        requests := List.replicate ((leadingFull fd).length + 1) BUFFER_SIZE,
        rest := fd.drop ((leadingFull fd).length + 1) } := by
  simp [readAllFromFd, readLoop_eq]

theorem leadingFull_append_short (full : List Str) (short : Str) (later : List Str)
    (hfull : ∀ c ∈ full, c.length = BUFFER_SIZE) (hshort : short.length ≠ BUFFER_SIZE) :
    leadingFull (full ++ short :: later) = full := by
  unfold leadingFull
  rw [List.takeWhile_append_of_pos]
  · simp [List.takeWhile_cons, hshort]
  · intro c hc
    simp [hfull c hc]

theorem leadingFull_all (fd : List Str) (hfull : ∀ c ∈ fd, c.length = BUFFER_SIZE) :
    leadingFull fd = fd := by
  unfold leadingFull
  rw [List.takeWhile_eq_self_iff]
  intro c hc
  simp [hfull c hc]

theorem processed_append_short (full : List Str) (short : Str) (later : List Str)
    (hfull : ∀ c ∈ full, c.length = BUFFER_SIZE) (hshort : short.length ≠ BUFFER_SIZE) :
    processed (full ++ short :: later) = full ++ [short] := by
  unfold processed
  rw [leadingFull_append_short full short later hfull hshort]
  rw [List.take_append_eq_append_take]
  simp

theorem processed_all (fd : List Str) (hfull : ∀ c ∈ fd, c.length = BUFFER_SIZE) :
    processed fd = fd := by
  unfold processed
  rw [leadingFull_all fd hfull]
  simp

theorem map_appended_of_no_NUL (chunks : List Str) (h : ∀ c ∈ chunks, NUL ∉ c) :
    chunks.map appended = chunks := by
  induction chunks with
  | nil => rfl
  | cons c cs ih =>
      simp only [List.map_cons]
      rw [appended_of_no_NUL c (h c (by simp)), ih (fun d hd => h d (by simp [hd]))]

theorem NUL_not_mem_flatten_appended (chunks : List Str) :
    NUL ∉ (chunks.map appended).flatten := by
  intro h
  rw [List.mem_flatten] at h
  obtain ⟨l, hl, hmem⟩ := h
  rw [List.mem_map] at hl
  obtain ⟨c, _, rfl⟩ := hl
  exact NUL_not_mem_appended c hmem

theorem readAllFromFd_data_full_then_short (full : List Str) (short : Str) (later : List Str)
    (hfull : ∀ c ∈ full, c.length = BUFFER_SIZE) (hshort : short.length ≠ BUFFER_SIZE) :
    readAllFromFd (full ++ short :: later) =
      { data := ((full ++ [short]).map appended).flatten,
        requests := List.replicate (full.length + 1) BUFFER_SIZE,
        rest := later } := by
  rw [readAllFromFd_eq, processed_append_short full short later hfull hshort,
    leadingFull_append_short full short later hfull hshort]
  congr 1
  rw [List.drop_append_eq_append_drop]
  simp

theorem readAllFromFd_data_all_full (fd : List Str)
    (hfull : ∀ c ∈ fd, c.length = BUFFER_SIZE) (hnul : ∀ c ∈ fd, NUL ∉ c) :
    readAllFromFd fd =
      { data := fd.flatten,
        requests := List.replicate (fd.length + 1) BUFFER_SIZE,
        rest := [] } := by
  rw [readAllFromFd_eq, processed_all fd hfull, leadingFull_all fd hfull,
    map_appended_of_no_NUL fd hnul]
  simp

theorem fullChunk_length (c : Char) : (fullChunk c).length = 2048 := by
  simp only [fullChunk, List.length_replicate, BUFFER_SIZE]

theorem NUL_not_mem_fullChunk (c : Char) (h : c ≠ NUL) : NUL ∉ fullChunk c := by
  intro hmem
  exact h (List.eq_of_mem_replicate hmem).symm

/-- C5, as amended: a stream delivered as two or more read results of which all but
the last have exactly 2048 bytes, the last has fewer, and none contains a zero byte,
is returned by `readAllFromFd` as the concatenation of all the chunks, in order. -/
theorem readAllFromFd_concatenates_full_then_short (full : List Str) (last : Str)
    (hmany : full ≠ [])
    (hfull : ∀ c ∈ full, c.length = 2048)
    (hlast : last.length < 2048)
    (hnul : ∀ c ∈ full ++ [last], NUL ∉ c) :
    2 ≤ (full ++ [last]).length ∧
    (readAllFromFd (full ++ [last])).data = (full ++ [last]).flatten := by
  constructor
  · cases full with
    | nil => exact absurd rfl hmany
    | cons c cs => simp
  · have hs : last.length ≠ BUFFER_SIZE := by
      simp only [BUFFER_SIZE]; omega
    rw [readAllFromFd_data_full_then_short full last [] hfull hs,
      map_appended_of_no_NUL _ hnul]

/-- C5 witness: one full chunk of 2048 bytes followed by a one-byte chunk. -/
theorem readAllFromFd_concatenates_full_then_short_witness :
    ([fullChunk 'a'] ≠ []) ∧
    (∀ c ∈ [fullChunk 'a'], c.length = 2048) ∧
    ("b".toList.length < 2048) ∧
    (∀ c ∈ [fullChunk 'a'] ++ ["b".toList], NUL ∉ c) ∧
    (2 ≤ ([fullChunk 'a'] ++ ["b".toList]).length ∧
      (readAllFromFd ([fullChunk 'a'] ++ ["b".toList])).data =
        ([fullChunk 'a'] ++ ["b".toList]).flatten) :=
  have hfull : ∀ c ∈ [fullChunk 'a'], c.length = 2048 := by
    intro c hc
    rw [List.mem_singleton] at hc
    rw [hc]; exact fullChunk_length 'a'
  have hnul : ∀ c ∈ [fullChunk 'a'] ++ ["b".toList], NUL ∉ c := by
    intro c hc
    simp only [List.singleton_append, List.mem_cons, List.mem_singleton, List.not_mem_nil,
      or_false] at hc
    rcases hc with rfl | rfl
    · exact NUL_not_mem_fullChunk 'a' (by decide)
    · decide
  ⟨by simp, hfull, by decide, hnul,
    readAllFromFd_concatenates_full_then_short [fullChunk 'a'] "b".toList
      (by simp) hfull (by decide) hnul⟩

/-- C5, as stated, fails: two read results of two bytes each (both at most 2048 bytes,
the last shorter than 2048) are not concatenated; only the first is returned. -/
theorem readAllFromFd_two_short_reads :
    (2 ≤ ["ab".toList, "cd".toList].length ∧
      (∀ c ∈ ["ab".toList, "cd".toList], c.length ≤ 2048) ∧
      "cd".toList.length < 2048) ∧
    (readAllFromFd ["ab".toList, "cd".toList]).data = "ab".toList ∧
    (readAllFromFd ["ab".toList, "cd".toList]).data ≠ ["ab".toList, "cd".toList].flatten := by
  decide

/-- C7: whatever the read results, every `read` that `readAllFromFd` issues asks for
at most 2048 bytes, the number of reads is one more than the number of leading
results of exactly 2048 bytes, and after the first result shorter than 2048 bytes the
loop stops: what the descriptor holds behind it is left unread and has no influence
on the returned string. -/
theorem readAllFromFd_stops_after_first_short_read (fd : List Str) :
    (∀ n ∈ (readAllFromFd fd).requests, n ≤ 2048) ∧
    (readAllFromFd fd).requests.length =
      (fd.takeWhile (fun chunk => chunk.length == 2048)).length + 1 ∧
    (∀ (full : List Str) (short : Str) (later : List Str),
      fd = full ++ short :: later →
      (∀ c ∈ full, c.length = 2048) → short.length < 2048 →
        (readAllFromFd fd).requests.length = full.length + 1 ∧
        (readAllFromFd fd).rest = later ∧
        ∀ other : List Str,
          (readAllFromFd (full ++ short :: other)).data = (readAllFromFd fd).data) := by
  refine ⟨?_, ?_, ?_⟩
  · intro n hn
    rw [readAllFromFd_eq] at hn
    have := List.eq_of_mem_replicate hn
    simp [this, BUFFER_SIZE]
  · rw [readAllFromFd_eq]
    simp [leadingFull, BUFFER_SIZE]
  · intro full short later hfd hfull hshort
    have hs : short.length ≠ BUFFER_SIZE := by
      simp only [BUFFER_SIZE]; omega
    subst hfd
    refine ⟨?_, ?_, ?_⟩
    · rw [readAllFromFd_data_full_then_short full short later hfull hs]
      simp
    · rw [readAllFromFd_data_full_then_short full short later hfull hs]
    · intro other
      rw [readAllFromFd_data_full_then_short full short later hfull hs,
        readAllFromFd_data_full_then_short full short other hfull hs]

/-- C9, as amended: a stream delivered entirely in reads of exactly 2048 bytes, none
holding a zero byte, is returned in full (the loop ends on the read that meets the end
of the stream and returns no byte); the returned string is a strict prefix of the
content when instead a read shorter than 2048 bytes is followed by further data. -/
theorem readAllFromFd_full_size_reads_not_truncated (fd : List Str)
    (hfull : ∀ c ∈ fd, c.length = 2048) (hnul : ∀ c ∈ fd, NUL ∉ c) :
    (readAllFromFd fd).data = fd.flatten ∧
    (readAllFromFd fd).requests.length = fd.length + 1 ∧
    (readAllFromFd fd).rest = [] ∧
    (∀ (short : Str) (later : List Str),
      short.length < 2048 → NUL ∉ short → later.flatten ≠ [] →
        ∃ lost : Str, lost ≠ [] ∧
          (readAllFromFd (fd ++ short :: later)).data ++ lost =
            (fd ++ short :: later).flatten) := by
  refine ⟨?_, ?_, ?_, ?_⟩
  · rw [readAllFromFd_data_all_full fd hfull hnul]
  · rw [readAllFromFd_data_all_full fd hfull hnul]
    simp
  · rw [readAllFromFd_data_all_full fd hfull hnul]
  · intro short later hshort hsn hlater
    have hs : short.length ≠ BUFFER_SIZE := by
      simp only [BUFFER_SIZE]; omega
    refine ⟨later.flatten, hlater, ?_⟩
    rw [readAllFromFd_data_full_then_short fd short later hfull hs]
    have hall : ∀ c ∈ fd ++ [short], NUL ∉ c := by
      intro c hc
      rw [List.mem_append, List.mem_singleton] at hc
      rcases hc with hc | rfl
      · exact hnul c hc
      · exact hsn
    rw [map_appended_of_no_NUL _ hall]
    simp

/-- C9 witness: one read of 2048 bytes, then the end of the stream. -/
theorem readAllFromFd_full_size_reads_not_truncated_witness :
    (∀ c ∈ [fullChunk 'a'], c.length = 2048) ∧
    (∀ c ∈ [fullChunk 'a'], NUL ∉ c) ∧
    (readAllFromFd [fullChunk 'a']).data = [fullChunk 'a'].flatten ∧
    (readAllFromFd [fullChunk 'a']).requests.length = [fullChunk 'a'].length + 1 ∧
    (readAllFromFd [fullChunk 'a']).rest = [] ∧
    (∀ (short : Str) (later : List Str),
      short.length < 2048 → NUL ∉ short → later.flatten ≠ [] →
        ∃ lost : Str, lost ≠ [] ∧
          (readAllFromFd ([fullChunk 'a'] ++ short :: later)).data ++ lost =
            ([fullChunk 'a'] ++ short :: later).flatten) :=
  have hfull : ∀ c ∈ [fullChunk 'a'], c.length = 2048 := by
    intro c hc
    rw [List.mem_singleton] at hc
    rw [hc]; exact fullChunk_length 'a'
  have hnul : ∀ c ∈ [fullChunk 'a'], NUL ∉ c := by
    intro c hc
    rw [List.mem_singleton] at hc
    rw [hc]; exact NUL_not_mem_fullChunk 'a' (by decide)
  ⟨hfull, hnul, readAllFromFd_full_size_reads_not_truncated [fullChunk 'a'] hfull hnul⟩

/-- C9, as stated, fails: a stream delivered as one read of exactly 2048 bytes before
its end is returned whole, so the returned string is not a strict prefix of it. -/
theorem readAllFromFd_one_full_read_returned_whole :
    (∀ c ∈ [fullChunk 'a'], c.length = 2048) ∧
    (readAllFromFd [fullChunk 'a']).data = [fullChunk 'a'].flatten ∧
    ¬ ∃ lost : Str, lost ≠ [] ∧
        (readAllFromFd [fullChunk 'a']).data ++ lost = [fullChunk 'a'].flatten := by
  have hfull : ∀ c ∈ [fullChunk 'a'], c.length = BUFFER_SIZE := by
    intro c hc
    rw [List.mem_singleton] at hc
    rw [hc]; exact fullChunk_length 'a'
  have hnul : ∀ c ∈ [fullChunk 'a'], NUL ∉ c := by
    intro c hc
    rw [List.mem_singleton] at hc
    rw [hc]; exact NUL_not_mem_fullChunk 'a' (by decide)
  have hdata := readAllFromFd_data_all_full [fullChunk 'a'] hfull hnul
  refine ⟨hfull, by rw [hdata], ?_⟩
  rintro ⟨lost, hne, heq⟩
  rw [hdata] at heq
  exact hne (List.append_right_eq_self.mp heq)

/-- C10: each chunk contributes its bytes before its first zero byte (the whole chunk
when it has none); the returned string is the concatenation of these contributions of
the processed chunks, holds no zero byte, and equals the concatenation of the
processed chunks exactly when none of them holds a zero byte. -/
theorem readAllFromFd_cuts_chunks_at_first_NUL (fd : List Str) :
    processed fd = fd.take ((fd.takeWhile (fun chunk => chunk.length == 2048)).length + 1) ∧
    (∀ chunk : Str, NUL ∉ chunk → appended chunk = chunk) ∧
    (∀ pre post : Str, NUL ∉ pre → appended (pre ++ NUL :: post) = pre) ∧
    (readAllFromFd fd).data = ((processed fd).map appended).flatten ∧
    NUL ∉ (readAllFromFd fd).data ∧
    ((readAllFromFd fd).data = (processed fd).flatten ↔
      ∀ chunk ∈ processed fd, NUL ∉ chunk) := by
  have hdata : (readAllFromFd fd).data = ((processed fd).map appended).flatten := by
    rw [readAllFromFd_eq]
  refine ⟨rfl, appended_of_no_NUL, fun pre post h => appended_at_first_NUL pre post h, hdata,
    ?_, ?_⟩
  · rw [hdata]
    exact NUL_not_mem_flatten_appended _
  · constructor
    · intro heq chunk hchunk hmem
      have hno : NUL ∉ (readAllFromFd fd).data := by
        rw [hdata]
        exact NUL_not_mem_flatten_appended _
      rw [heq] at hno
      exact hno (List.mem_flatten.mpr ⟨chunk, hchunk, hmem⟩)
    · intro h
      rw [hdata, map_appended_of_no_NUL _ h]

/-! ## The file classifier -/

theorem rfind_eq_none_iff (s : Str) (c : Char) : rfind s c = none ↔ c ∉ s := by
  induction s with
  | nil => simp [rfind]
  | cons x xs ih =>
      rw [rfind]
      cases hr : rfind xs c with
      | some i =>
          have hmem : ¬ (c ∉ xs) := fun hn => by
            rw [ih.mpr hn] at hr
            exact Option.noConfusion hr
          simp only [List.mem_cons, not_or]
          constructor
          · intro h; exact Option.noConfusion h
          · intro h; exact absurd h.2 hmem
      | none =>
          have hn : c ∉ xs := ih.mp hr
          by_cases hx : x = c
          · simp [hx]
          · simp only [hx, if_false, List.mem_cons, not_or, true_iff]
            exact ⟨fun h => hx h.symm, hn⟩

theorem rfind_last_occurrence (stem ext : Str) (c : Char) (h : c ∉ ext) :
    rfind (stem ++ c :: ext) c = some stem.length := by
  induction stem with
  | nil =>
      simp only [List.nil_append, List.length_nil]
      rw [rfind, (rfind_eq_none_iff ext c).mpr h]
      simp
  | cons x xs ih =>
      simp only [List.cons_append, List.length_cons]
      rw [rfind, ih]

theorem drop_past_dot (stem ext : Str) (c : Char) :
    (stem ++ c :: ext).drop (stem.length + 1) = ext := by
  induction stem with
  | nil => simp
  | cons x xs ih => simp

theorem getFileTypeFromExtension_eq_none (ext : Str)
    (h : ∀ entry ∈ wellKnownExtensions, entry.1 ≠ ext) :
    getFileTypeFromExtension ext = none := by
  have hfind : mapFind wellKnownExtensions ext = none := by
    unfold mapFind
    rw [List.find?_eq_none]
    intro entry hentry
    simpa using h entry hentry
  simp [getFileTypeFromExtension, hfind]

theorem copyFile_of_known (w : World) (stem ext fileType : Str) (hdot : '.' ∉ ext)
    (hknown : getFileTypeFromExtension ext = some fileType) :
    copyFile w (stem ++ '.' :: ext) = copyFileToClipboard w (stem ++ '.' :: ext) fileType := by
  unfold copyFile
  rw [rfind_last_occurrence stem ext '.' hdot]
  simp only [drop_past_dot, hknown]

theorem copyFile_of_unknown (w : World) (stem ext : Str) (hdot : '.' ∉ ext)
    (hunknown : getFileTypeFromExtension ext = none) :
    copyFile w (stem ++ '.' :: ext) = copyRawFileToClipboard w (stem ++ '.' :: ext) := by
  unfold copyFile
  rw [rfind_last_occurrence stem ext '.' hdot]
  simp only [drop_past_dot, hunknown]

theorem copyFile_of_no_dot (w : World) (path : Str) (hdot : '.' ∉ path) :
    copyFile w path = copyRawFileToClipboard w path := by
  unfold copyFile
  rw [(rfind_eq_none_iff path '.').mpr hdot]

theorem after_trace {α : Type} (before : List Event) (r : Result α) :
    (r.after before).trace = before ++ r.trace := by
  cases r <;> rfl

theorem copyRawFileToClipboard_first_event (w : World) (path : Str) :
    (copyRawFileToClipboard w path).trace.head? = some (Event.fopen path "r".toList) := by
  unfold copyRawFileToClipboard
  cases w.fopen path with
  | none => rfl
  | some fd => simp [after_trace]

theorem copyFileToClipboard_trace (w : World) (path fileType : Str) :
    ∃ later, (copyFileToClipboard w path fileType).trace =
      Event.fork :: Event.execlp ["xclip".toList, "-selection".toList, "clipboard".toList,
        "-t".toList, fileType, path] :: later := by
  unfold copyFileToClipboard childBranch
  cases w.child <;> simp only [] <;> split <;> simp [Result.trace]

theorem copyFileToClipboard_ne_raw (w : World) (path fileType : Str) :
    copyFileToClipboard w path fileType ≠ copyRawFileToClipboard w path := by
  intro h
  have h1 := copyRawFileToClipboard_first_event w path
  obtain ⟨later, h2⟩ := copyFileToClipboard_trace w path fileType
  rw [← h, h2] at h1
  simp at h1

/-- C1: a path whose part after its last `.` is one of the eleven table extensions is
copied by `copyFileToClipboard` with that path and the MIME type the table gives: the
child is asked to run `xclip -selection clipboard -t <type> <path>`, and the result is
never that of `copyRawFileToClipboard`. -/
theorem copyFile_known_extension (w : World) (stem ext fileType : Str)
    (h : (ext, fileType) ∈
      [ ("json".toList, "application/json".toList), ("pdf".toList, "application/pdf".toList),
        ("zip".toList, "application/zip".toList), ("png".toList, "image/png".toList),
        ("jpeg".toList, "image/jpeg".toList), ("jpg".toList, "image/jpeg".toList),
        ("gif".toList, "image/gif".toList), ("bmp".toList, "image/bmp".toList),
        ("js".toList, "text/javascript".toList), ("html".toList, "text/html".toList),
        ("css".toList, "text/css".toList) ]) :
    copyFile w (stem ++ '.' :: ext) = copyFileToClipboard w (stem ++ '.' :: ext) fileType ∧
    Event.execlp ["xclip".toList, "-selection".toList, "clipboard".toList, "-t".toList,
        fileType, stem ++ '.' :: ext] ∈ (copyFile w (stem ++ '.' :: ext)).trace ∧
    copyFile w (stem ++ '.' :: ext) ≠ copyRawFileToClipboard w (stem ++ '.' :: ext) := by
  have hkey : '.' ∉ ext ∧ getFileTypeFromExtension ext = some fileType := by
    simp only [List.mem_cons, Prod.mk.injEq, List.not_mem_nil, or_false] at h
    rcases h with h | h | h | h | h | h | h | h | h | h | h <;>
      (obtain ⟨rfl, rfl⟩ := h; exact ⟨by decide, by decide⟩)
  have heq := copyFile_of_known w stem ext fileType hkey.1 hkey.2
  refine ⟨heq, ?_, ?_⟩
  · rw [heq]
    obtain ⟨later, hl⟩ := copyFileToClipboard_trace w (stem ++ '.' :: ext) fileType
    rw [hl]
    simp
  · rw [heq]
    exact copyFileToClipboard_ne_raw w _ fileType

/-- C1 witness: `photo.png` is copied with type `image/png`. -/
theorem copyFile_known_extension_witness :
    (("png".toList, "image/png".toList) ∈
      [ ("json".toList, "application/json".toList), ("pdf".toList, "application/pdf".toList),
        ("zip".toList, "application/zip".toList), ("png".toList, "image/png".toList),
        ("jpeg".toList, "image/jpeg".toList), ("jpg".toList, "image/jpeg".toList),
        ("gif".toList, "image/gif".toList), ("bmp".toList, "image/bmp".toList),
        ("js".toList, "text/javascript".toList), ("html".toList, "text/html".toList),
        ("css".toList, "text/css".toList) ]) ∧
    (copyFile sampleWorld ("photo".toList ++ '.' :: "png".toList) =
        copyFileToClipboard sampleWorld ("photo".toList ++ '.' :: "png".toList)
          "image/png".toList ∧
      Event.execlp ["xclip".toList, "-selection".toList, "clipboard".toList, "-t".toList,
          "image/png".toList, "photo".toList ++ '.' :: "png".toList] ∈
        (copyFile sampleWorld ("photo".toList ++ '.' :: "png".toList)).trace ∧
      copyFile sampleWorld ("photo".toList ++ '.' :: "png".toList) ≠
        copyRawFileToClipboard sampleWorld ("photo".toList ++ '.' :: "png".toList)) :=
  ⟨by decide,
    copyFile_known_extension sampleWorld "photo".toList "png".toList "image/png".toList
      (by decide)⟩

/-- C2: a path without `.`, or ending in `.`, or whose part after the last `.` is not
(byte for byte) one of the eleven table keys, is copied by `copyRawFileToClipboard`
on that path, and never by `copyFileToClipboard`, whatever the type. -/
theorem copyFile_unknown_extension (w : World) (path : Str)
    (h : '.' ∉ path ∨ (∃ stem : Str, path = stem ++ ['.']) ∨
      ∃ stem ext : Str, path = stem ++ '.' :: ext ∧ '.' ∉ ext ∧
        ext ∉ ["json".toList, "pdf".toList, "zip".toList, "png".toList, "jpeg".toList,
          "jpg".toList, "gif".toList, "bmp".toList, "js".toList, "html".toList,
          "css".toList]) :
    copyFile w path = copyRawFileToClipboard w path ∧
    ∀ fileType : Str, copyFile w path ≠ copyFileToClipboard w path fileType := by
  have heq : copyFile w path = copyRawFileToClipboard w path := by
    rcases h with h | ⟨stem, rfl⟩ | ⟨stem, ext, rfl, hdot, hext⟩
    · exact copyFile_of_no_dot w path h
    · exact copyFile_of_unknown w stem [] (by simp) (by decide)
    · refine copyFile_of_unknown w stem ext hdot (getFileTypeFromExtension_eq_none ext ?_)
      intro entry hentry hkey
      apply hext
      rw [← hkey]
      simp only [wellKnownExtensions, List.mem_cons, List.not_mem_nil, or_false] at hentry
      rcases hentry with h | h | h | h | h | h | h | h | h | h | h <;>
        (subst h; decide)
  refine ⟨heq, fun fileType hty => ?_⟩
  rw [heq] at hty
  exact copyFileToClipboard_ne_raw w path fileType hty.symm

/-- C2 witness: `dir.png/file`, whose part after the last `.` is `png/file`. -/
theorem copyFile_unknown_extension_witness :
    ('.' ∉ "dir.png/file".toList ∨ (∃ stem : Str, "dir.png/file".toList = stem ++ ['.']) ∨
      ∃ stem ext : Str, "dir.png/file".toList = stem ++ '.' :: ext ∧ '.' ∉ ext ∧
        ext ∉ ["json".toList, "pdf".toList, "zip".toList, "png".toList, "jpeg".toList,
          "jpg".toList, "gif".toList, "bmp".toList, "js".toList, "html".toList,
          "css".toList]) ∧
    (copyFile sampleWorld "dir.png/file".toList =
        copyRawFileToClipboard sampleWorld "dir.png/file".toList ∧
      ∀ fileType : Str, copyFile sampleWorld "dir.png/file".toList ≠
        copyFileToClipboard sampleWorld "dir.png/file".toList fileType) :=
  have h : '.' ∉ "dir.png/file".toList ∨
      (∃ stem : Str, "dir.png/file".toList = stem ++ ['.']) ∨
      ∃ stem ext : Str, "dir.png/file".toList = stem ++ '.' :: ext ∧ '.' ∉ ext ∧
        ext ∉ ["json".toList, "pdf".toList, "zip".toList, "png".toList, "jpeg".toList,
          "jpg".toList, "gif".toList, "bmp".toList, "js".toList, "html".toList,
          "css".toList] :=
    Or.inr (Or.inr ⟨"dir".toList, "png/file".toList, by decide, by decide, by decide⟩)
  ⟨h, copyFile_unknown_extension sampleWorld "dir.png/file".toList h⟩

/-! ## The subprocess operations and the dispatcher -/

theorem getClipboardContents_ran (w : World) (output : List Str) (status : Int)
    (hran : w.child = Child.ran output status) :
    getClipboardContents w =
      if status ≠ 0 then
        .exited [Event.fork,
          Event.execlp ["xclip".toList, "-selection".toList, "clipboard".toList, "-o".toList],
          Event.waitpid status,
          Event.cerr ("Error getting clipboard data".toList ++ endl)] 1
      else
        .returned [Event.fork,
          Event.execlp ["xclip".toList, "-selection".toList, "clipboard".toList, "-o".toList],
          Event.waitpid status] (readAllFromFd output).data := by
  unfold getClipboardContents childBranch
  rw [hran]
  simp only [waitStatus, pipeOutput]
  split <;> rfl

theorem printUsage_only_cout : ∀ e ∈ printUsage, ∃ text : Str, e = Event.cout text := by
  intro e he
  simp only [printUsage, List.mem_cons, List.mem_map] at he
  rcases he with rfl | ⟨x, _, rfl⟩
  · exact ⟨_, rfl⟩
  · exact ⟨_, rfl⟩

/-- C3: `main` dispatches on the number of extra arguments and on whether standard
input is a terminal: none and a terminal, it prints what `getClipboardContents`
returns; none and no terminal, it hands what `readAllFromFd` read from standard input
to `copyToClipboard`; one that is `--help` or `-h`, it prints the usage; one other, it
calls `copyFile` on it; two or more, it prints the usage, which consists of writes to
standard output only.  Whenever the selected action returns, `main` returns 0; when it
ends the program (through `exit`, by a signal, or in undefined behaviour) so does
`main`, in the same way. -/
theorem main_dispatch (w : World) (prog : Str) :
    (w.isatty = true →
      (∀ t content, getClipboardContents w = .returned t content →
        main w [prog] = .returned (t ++ [Event.cout content]) 0) ∧
      (∀ t c, getClipboardContents w = .exited t c → main w [prog] = .exited t c)) ∧
    (w.isatty = false →
      (∀ t, copyToClipboard w (readAllFromFd w.stdin).data = .returned t () →
        main w [prog] = .returned t 0) ∧
      (∀ t c, copyToClipboard w (readAllFromFd w.stdin).data = .exited t c →
        main w [prog] = .exited t c) ∧
      (∀ t s, copyToClipboard w (readAllFromFd w.stdin).data = .killed t s →
        main w [prog] = .killed t s)) ∧
    (main w [prog, "--help".toList] = .returned printUsage 0 ∧
      main w [prog, "-h".toList] = .returned printUsage 0) ∧
    (∀ arg : Str, arg ≠ "--help".toList → arg ≠ "-h".toList →
      (∀ t, copyFile w arg = .returned t () → main w [prog, arg] = .returned t 0) ∧
      (∀ t c, copyFile w arg = .exited t c → main w [prog, arg] = .exited t c) ∧
      (∀ t, copyFile w arg = .undefined t → main w [prog, arg] = .undefined t) ∧
      (∀ t s, copyFile w arg = .killed t s → main w [prog, arg] = .killed t s)) ∧
    (∀ (a b : Str) (others : List Str),
      main w (prog :: a :: b :: others) = .returned printUsage 0) ∧
    (∀ e ∈ printUsage, ∃ text : Str, e = Event.cout text) ∧
    (∀ (extras : List Str) (t : List Event) (v : Int),
      main w (prog :: extras) = .returned t v → v = 0) := by
  refine ⟨?_, ?_, ?_, ?_, ?_, printUsage_only_cout, ?_⟩
  · intro htty
    constructor
    · intro t content h
      simp [main, htty, h, Result.andThen, Result.after]
    · intro t c h
      simp [main, htty, h, Result.andThen]
  · intro htty
    refine ⟨?_, ?_, ?_⟩
    · intro t h
      simp [main, htty, h, Result.andThen, Result.after]
    · intro t c h
      simp [main, htty, h, Result.andThen]
    · intro t s h
      simp [main, htty, h, Result.andThen]
  · constructor <;> simp [main]
  · intro arg h1 h2
    have hno : ¬ (arg = "--help".toList ∨ arg = "-h".toList) := by
      rintro (h | h)
      · exact h1 h
      · exact h2 h
    have hmain : main w [prog, arg] =
        (copyFile w arg).andThen fun _ => .returned [] 0 := by
      have hif : main w [prog, arg] =
          if arg = "--help".toList ∨ arg = "-h".toList then .returned printUsage 0
          else (copyFile w arg).andThen fun _ => .returned [] 0 := rfl
      rw [hif, if_neg hno]
    rw [hmain]
    refine ⟨?_, ?_, ?_, ?_⟩
    · intro t h
      simp [h, Result.andThen, Result.after]
    · intro t c h
      simp [h, Result.andThen]
    · intro t h
      simp [h, Result.andThen]
    · intro t s h
      simp [h, Result.andThen]
  · intro a b others
    simp [main]
  · intro extras t v h
    unfold main at h
    simp only [List.length_cons] at h
    split at h
    · split at h
      · cases hg : getClipboardContents w <;> rw [hg] at h <;>
          simp [Result.andThen, Result.after] at h
        exact h.2.symm
      · cases hg : copyToClipboard w (readAllFromFd w.stdin).data <;> rw [hg] at h <;>
          simp [Result.andThen, Result.after] at h
        exact h.2.symm
    · split at h
      · split at h
        · simp at h
          exact h.2.symm
        · cases hg : copyFile w ((prog :: extras).getD 1 []) <;> rw [hg] at h <;>
            simp [Result.andThen, Result.after] at h
          exact h.2.symm
      · simp at h
        exact h.2.symm

/-- C4, the code at a failing input: standard input is a pipe that delivers, in one
read, `a`, a zero byte and `b`; the program hands `a` alone to `copyToClipboard`.
Likewise, when the pipe delivers `ab` and later `cd`, the program hands over `ab`, not
`abcd`. -/
theorem main_does_not_copy_all_of_stdin :
    nulWorld.isatty = false ∧
    nulWorld.stdin.flatten = ['a', NUL, 'b'] ∧
    written (main nulWorld ["cpy".toList]).trace = [['a']] ∧
    sampleWorld.isatty = false ∧
    sampleWorld.stdin.flatten = "abcd".toList ∧
    written (main sampleWorld ["cpy".toList]).trace = ["ab".toList] := by
  decide

/-- C8, as stated, fails: the utility wrote `abc` and left wait status 1; the program
ends with status 1 and has sent nothing to standard output. -/
theorem main_failed_read_prints_nothing :
    failedReadWorld.isatty = true ∧
    failedReadWorld.child = Child.ran ["abc".toList] 1 ∧
    (readAllFromFd ["abc".toList]).data = "abc".toList ∧
    main failedReadWorld ["cpy".toList] =
      .exited [Event.fork,
        Event.execlp ["xclip".toList, "-selection".toList, "clipboard".toList, "-o".toList],
        Event.waitpid 1,
        Event.cerr ("Error getting clipboard data".toList ++ [Char.ofNat 10])] 1 ∧
    stdoutText (main failedReadWorld ["cpy".toList]).trace = [] ∧
    stdoutText (main failedReadWorld ["cpy".toList]).trace ≠ "abc".toList := by
  decide

/-- C8, as amended: in the clipboard-read path the wait status is checked inside
`getClipboardContents`, before the content is returned.  With a status other than zero
nothing is sent to standard output: the program sends one line to standard error and
ends with status 1.  With status zero the content is printed, after `waitpid`. -/
theorem main_clipboard_read_checks_status_first (w : World) (prog : Str)
    (output : List Str) (status : Int)
    (htty : w.isatty = true) (hran : w.child = Child.ran output status) :
    (status ≠ 0 →
      ∃ t, main w [prog] = .exited t 1 ∧ stdoutText t = [] ∧
        stderrText t = "Error getting clipboard data".toList ++ [Char.ofNat 10]) ∧
    (status = 0 →
      ∃ t, main w [prog] = .returned (t ++ [Event.cout (readAllFromFd output).data]) 0 ∧
        Event.waitpid 0 ∈ t ∧ stdoutText t = [] ∧
        stdoutText (main w [prog]).trace = (readAllFromFd output).data) := by
  have hmain : main w [prog] =
      (getClipboardContents w).andThen fun content => .returned [Event.cout content] 0 := by
    simp [main, htty]
  rw [hmain, getClipboardContents_ran w output status hran]
  constructor
  · intro h
    simp only [h, ne_eq, not_false_eq_true, if_true, Result.andThen]
    exact ⟨_, rfl, rfl, rfl⟩
  · intro h
    subst h
    simp only [ne_eq, not_true_eq_false, if_false, Result.andThen, Result.after]
    refine ⟨_, rfl, by simp, rfl, ?_⟩
    simp [Result.trace, stdoutText]

/-- C8 witness: the utility wrote `abc` and left wait status 1. -/
theorem main_clipboard_read_checks_status_first_witness :
    failedReadWorld.isatty = true ∧
    failedReadWorld.child = Child.ran ["abc".toList] 1 ∧
    ∃ t, main failedReadWorld ["cpy".toList] = .exited t 1 ∧ stdoutText t = [] ∧
      stderrText t = "Error getting clipboard data".toList ++ [Char.ofNat 10] :=
  ⟨rfl, rfl,
    (main_clipboard_read_checks_status_first failedReadWorld "cpy".toList ["abc".toList] 1
      rfl rfl).1 (by decide)⟩

end Cpy
